import Mathlib

/-!
Verification of the FundSight core (`app.py`): the NAV series alignment,
auto-adjusting windowing (`build_combined`), normalisation (`safe_normalise`)
and period-return (`period_returns`) logic.

Modelling conventions:
* dates are integers (`Int`), standing for timestamps in increasing order;
* NAV values are exact rationals; a pandas cell is `Option ℚ`, with `none`
  standing for an absent value (`NaN`);
* a pandas `Series` is a list of `(date, value)` entries, sorted by date in
  the program's inputs (the app sorts each fetched history by date);
* a `DataFrame` is a `Table`: a date index plus named columns of cells;
* a raised Python exception is modelled by `Option.none` on the function's
  result (only `build_combined` has a reachable raising path, the `max()`
  over an empty sequence at line 173 of `app.py`);
* non-finite float results (`inf` from division by a zero reference value)
  are modelled as absent; no claim below distinguishes them.
-/

namespace FundSight

/-- A NAV series: date-indexed observations; `none` models a missing value. -/
abbrev Series := List (Int × Option ℚ)

/-- `s.dropna()`: the sub-series of real (non-missing) observations. -/
def dropna (s : Series) : Series := s.filter (fun e => e.2.isSome)

/-- Exact-date lookup in a series (the cell `pd.concat` places at date `d`):
the stored value at date `d`, or `none` when the series has no entry there. -/
def lookupAt (s : Series) (d : Int) : Option ℚ :=
  (s.find? (fun e => e.1 = d)).bind Prod.snd

/-- Ordered insertion of a date into a sorted duplicate-free date list. -/
def insertDate (d : Int) : List Int → List Int
  | [] => [d]
  | x :: xs => if d < x then d :: x :: xs
               else if d = x then x :: xs
               else x :: insertDate d xs

/-- The sorted union of all observation dates of the given fund series:
the index `pd.concat(series_dict, axis=1).sort_index()` produces. -/
def unionDates (sd : List (String × Series)) : List Int :=
  ((sd.map (fun p => p.2.map Prod.fst)).flatten).foldr insertDate []

/-- A dataframe with a date index and one cell column per fund. -/
structure Table where
  index : List Int
  cols : List (String × List (Option ℚ))
deriving Repr, DecidableEq

/-- `df.empty`: true when either axis has length zero. -/
def Table.isEmpty (t : Table) : Bool := t.index.isEmpty || t.cols.isEmpty

/-- `pd.concat(series_dict, axis=1).sort_index()`: union date index,
exact-date cells per fund. -/
def concatTable (sd : List (String × Series)) : Table :=
  let idx := unionDates sd
  { index := idx, cols := sd.map (fun p => (p.1, idx.map (fun d => lookupAt p.2 d))) }

/-- One column of `df.ffill()`: carry the last real value forward into gaps;
`acc` is the value carried in from earlier rows. -/
def ffillList (acc : Option ℚ) : List (Option ℚ) → List (Option ℚ)
  | [] => []
  | v :: vs =>
      match v with
      | some x => some x :: ffillList (some x) vs
      | none => acc :: ffillList acc vs

/-- `df.ffill()` applied to every column. -/
def ffillTable (t : Table) : Table :=
  { index := t.index, cols := t.cols.map (fun c => (c.1, ffillList none c.2)) }

/-- `combined_full` of `build_combined`: concatenated, sorted, forward-filled. -/
def combined_full (sd : List (String × Series)) : Table :=
  ffillTable (concatTable sd)

/-- `df.loc[a:b]` on a sorted date index: the rows with date in `[a, b]`. -/
def sliceTable (t : Table) (a b : Int) : Table :=
  { index := t.index.filter (fun d => decide (a ≤ d) && decide (d ≤ b)),
    cols := t.cols.map (fun c =>
      (c.1, ((t.index.zip c.2).filter
        (fun q => decide (a ≤ q.1) && decide (q.1 ≤ b))).map Prod.snd)) }

/-- `l.max()` over a list of dates; `none` on an empty list (where the Python
built-in `max` raises `ValueError`). -/
def listMax : List Int → Option Int
  | [] => none
  | x :: xs => some (match listMax xs with | none => x | some m => max x m)

/-- `l.min()` over a list of dates; `none` on an empty list. -/
def listMin : List Int → Option Int
  | [] => none
  | x :: xs => some (match listMin xs with | none => x | some m => min x m)

/-- `s.dropna().index.min()`: earliest date of a real observation. -/
def minObsDate (s : Series) : Option Int := listMin ((dropna s).map Prod.fst)

/-- Lines 173-177 of `app.py`: the maximum, over the funds whose series has at
least one real observation, of that fund's earliest real-observation date;
`none` when no fund qualifies (there the Python `max()` raises). -/
def earliestCommon (sd : List (String × Series)) : Option Int :=
  listMax ((sd.filter (fun p => !(dropna p.2).isEmpty)).filterMap
    (fun p => minObsDate p.2))

/-- `pd.DataFrame(columns=series_dict.keys())`: zero rows, the fund names as
columns. -/
def emptyTableCols (names : List String) : Table :=
  { index := [], cols := names.map (fun n => (n, [])) }

/-- The message returned when no adjustment can recover a non-empty window. -/
def noOverlapMsg : String := "No overlapping NAV data after adjusting the start date."

/-- The message reported when the start date was auto-adjusted. -/
def adjustMsg (d : Int) : String :=
  "Adjusted start date to **" ++ toString d ++ "** so that all selected funds have data."

/-- `build_combined(series_dict, start_date, end_date)` (lines 143-192 of
`app.py`). `none` models the `ValueError` that `max()` raises at line 173
when every series has an empty `dropna()`. -/
def build_combined (sd : List (String × Series)) (start_date end_date : Int) :
    Option (Table × String) :=
  let cf := combined_full sd
  let combined := sliceTable cf start_date end_date
  if combined.isEmpty then
    match earliestCommon sd with
    | none => none
    | some ec =>
        if end_date < ec then
          some (emptyTableCols (sd.map Prod.fst), noOverlapMsg)
        else
          some (sliceTable cf ec end_date, adjustMsg ec)
  else
    some (combined, "")

/-- `df.loc[d]` as a row: for each fund the cell stored at the exact date `d`. -/
def rowAt (t : Table) (d : Int) : List (Option ℚ) :=
  t.cols.map (fun c => ((t.index.zip c.2).find? (fun q => q.1 = d)).bind Prod.snd)

/-- The reference date `safe_normalise` actually uses: the given one when it is
a row of the table, else the table's earliest date. -/
def normBase (t : Table) (base_date : Int) : Int :=
  if base_date ∈ t.index then base_date else t.index.headD 0

/-- One cell of `df.div(base_vals).multiply(100)`: absent operands propagate
to absent; a zero reference value yields a non-finite float in the source,
modelled as absent. -/
def normCell (v b : Option ℚ) : Option ℚ :=
  match v, b with
  | some x, some y => if y = 0 then none else some (x / y * 100)
  | _, _ => none

/-- `safe_normalise(df, base_date)` (lines 97-109 of `app.py`). -/
def safe_normalise (df : Table) (base_date : Int) : Table :=
  if df.isEmpty then df
  else
    let b := normBase df base_date
    let baseVals := rowAt df b
    { index := df.index,
      cols := (df.cols.zip baseVals).map
        (fun p => (p.1.1, p.1.2.map (fun v => normCell v p.2))) }

/-- The returns container: period labels, fund names, and one row of cells per
label (`pd.DataFrame(rows).T`: labels as index, funds as columns). -/
structure RTable where
  labels : List String
  funds : List String
  rows : List (List (Option ℚ))
deriving Repr, DecidableEq

/-- `.round(2)`: round to two decimal places. -/
def round2 (x : ℚ) : ℚ := ((round (x * 100) : ℤ) : ℚ) / 100

/-- One cell of `((latest / price_start - 1) * 100).round(2)`: absent operands
propagate; a zero `price_start` yields a non-finite float, modelled absent. -/
def retCell (latest ps : Option ℚ) : Option ℚ :=
  match latest, ps with
  | some l, some p => if p = 0 then none else some (round2 ((l / p - 1) * 100))
  | _, _ => none

/-- `df.loc[df.index <= d].iloc[-1]` as a row: for each fund, the cell of the
last row whose date is at most `d` (`none` per fund when no such row exists;
in the source that case is guarded away before `iloc[-1]`). -/
def priceStartRow (t : Table) (d : Int) : List (Option ℚ) :=
  t.cols.map (fun c =>
    match ((t.index.zip c.2).filter (fun q => decide (q.1 ≤ d))).getLast? with
    | some q => q.2
    | none => none)

/-- `df.iloc[-1]` as a row: each fund's cell in the last row. -/
def latestRow (t : Table) : List (Option ℚ) :=
  t.cols.map (fun c => c.2.getLastD none)

/-- `period_returns(df, periods)` (lines 115-137 of `app.py`). On an empty
table the source returns `pd.DataFrame(columns=labels)`: read as the
label-to-fund mapping of a returns table, every label is present and maps to
no fund entries. -/
def period_returns (df : Table) (periods : List (String × Int)) : RTable :=
  if df.isEmpty then
    { labels := periods.map Prod.fst, funds := [], rows := periods.map (fun _ => []) }
  else
    let latest := latestRow df
    { labels := periods.map Prod.fst,
      funds := df.cols.map Prod.fst,
      rows := periods.map (fun p =>
        if p.2 < df.index.headD 0 then df.cols.map (fun _ => none)
        else (latest.zip (priceStartRow df p.2)).map (fun q => retCell q.1 q.2)) }

/-- Spec-side notion for the forward-fill claim: the fund's most recent real
observation at or before date `d` (for a series sorted by date), `none` when
the fund has no real observation at or before `d`. -/
def specLastObsAt : Series → Int → Option ℚ
  | [], _ => none
  | e :: rest, d =>
      match specLastObsAt rest d with
      | some v => some v
      | none => if e.1 ≤ d then e.2 else none

/-- Sortedness of a series: dates strictly increase along the list. -/
def SeriesSorted (s : Series) : Prop :=
  List.Pairwise (fun a b => a.1 < b.1) s

instance (s : Series) : Decidable (SeriesSorted s) := by
  unfold SeriesSorted; infer_instance

/-- Cell access: the value of the `k`-th fund column at the `j`-th row
(defaulting to absent outside the table). -/
def Table.cell (t : Table) (k j : Nat) : Option ℚ :=
  ((t.cols.getD k ("", [])).2).getD j none

/-- A concrete two-fund input used by the witnesses: fund `A` starts at day 1,
fund `B` at day 5, both observed on day 10. -/
def sdW : List (String × Series) :=
  [("A", [(1, some 100), (10, some 110)]), ("B", [(5, some 50), (10, some 55)])]

/-! ### Helper lemmas on the date-list utilities -/

theorem mem_insertDate {a d : Int} {l : List Int} :
    a ∈ insertDate d l ↔ a = d ∨ a ∈ l := by
  induction l with
  | nil => simp [insertDate]
  | cons x xs ih =>
      simp only [insertDate]
      split
      · simp [List.mem_cons]
      · split
        · next hlt heq => subst heq; simp [List.mem_cons]
        · simp [List.mem_cons, ih]; tauto

theorem sorted_insertDate {d : Int} {l : List Int}
    (h : List.Pairwise (· < ·) l) : List.Pairwise (· < ·) (insertDate d l) := by
  induction l with
  | nil => simp [insertDate]
  | cons x xs ih =>
      rw [List.pairwise_cons] at h
      simp only [insertDate]
      split
      · next hdx =>
          rw [List.pairwise_cons]
          refine ⟨?_, List.pairwise_cons.mpr h⟩
          intro a ha
          rcases List.mem_cons.mp ha with rfl | ha'
          · exact hdx
          · exact lt_trans hdx (h.1 a ha')
      · split
        · next hlt heq => subst heq; exact List.pairwise_cons.mpr h
        · next hlt hne =>
            have hxd : x < d := by omega
            rw [List.pairwise_cons]
            refine ⟨?_, ih h.2⟩
            intro a ha
            rcases mem_insertDate.mp ha with rfl | ha'
            · exact hxd
            · exact h.1 a ha'

theorem mem_foldr_insertDate {a : Int} {l : List Int} :
    a ∈ l.foldr insertDate [] ↔ a ∈ l := by
  induction l with
  | nil => simp
  | cons x xs ih => simp [mem_insertDate, ih]

theorem sorted_foldr_insertDate (l : List Int) :
    List.Pairwise (· < ·) (l.foldr insertDate []) := by
  induction l with
  | nil => simp
  | cons x xs ih => exact sorted_insertDate ih

theorem sorted_unionDates (sd : List (String × Series)) :
    List.Pairwise (· < ·) (unionDates sd) :=
  sorted_foldr_insertDate _

theorem mem_unionDates {sd : List (String × Series)} {p : String × Series}
    {e : Int × Option ℚ} (hp : p ∈ sd) (he : e ∈ p.2) :
    e.1 ∈ unionDates sd := by
  unfold unionDates
  rw [mem_foldr_insertDate]
  exact List.mem_flatten.mpr ⟨p.2.map Prod.fst,
    List.mem_map.mpr ⟨p, hp, rfl⟩, List.mem_map.mpr ⟨e, he, rfl⟩⟩

theorem listMax_eq_none {l : List Int} : listMax l = none ↔ l = [] := by
  cases l <;> simp [listMax]

theorem listMax_mem {l : List Int} {m : Int} (h : listMax l = some m) : m ∈ l := by
  induction l generalizing m with
  | nil => simp [listMax] at h
  | cons x xs ih =>
      simp only [listMax, Option.some.injEq] at h
      rcases hxs : listMax xs with _ | m'
      · rw [hxs] at h; simp at h; simp [h]
      · rw [hxs] at h; simp at h
        rcases max_choice x m' with hc | hc
        · rw [hc] at h; simp [h]
        · rw [hc] at h; exact List.mem_cons.mpr (Or.inr (h ▸ ih hxs))

theorem le_listMax {l : List Int} {m : Int} (h : listMax l = some m) :
    ∀ x ∈ l, x ≤ m := by
  induction l generalizing m with
  | nil => simp
  | cons y ys ih =>
      simp only [listMax, Option.some.injEq] at h
      intro x hx
      rcases hys : listMax ys with _ | m'
      · rw [hys] at h; simp at h
        rw [listMax_eq_none.mp hys] at hx
        simp at hx; omega
      · rw [hys] at h; simp at h
        rcases List.mem_cons.mp hx with rfl | hx'
        · omega
        · have := ih hys x hx'; omega

theorem listMin_mem {l : List Int} {m : Int} (h : listMin l = some m) : m ∈ l := by
  induction l generalizing m with
  | nil => simp [listMin] at h
  | cons x xs ih =>
      simp only [listMin, Option.some.injEq] at h
      rcases hxs : listMin xs with _ | m'
      · rw [hxs] at h; simp at h; simp [h]
      · rw [hxs] at h; simp at h
        rcases min_choice x m' with hc | hc
        · rw [hc] at h; simp [h]
        · rw [hc] at h; exact List.mem_cons.mpr (Or.inr (h ▸ ih hxs))

theorem minObsDate_isSome {s : Series} (h : (dropna s).isEmpty = false) :
    ∃ m, minObsDate s = some m := by
  unfold minObsDate
  cases hd : dropna s with
  | nil => rw [hd] at h; simp at h
  | cons e rest => exact ⟨_, rfl⟩

theorem earliestCommon_isSome {sd : List (String × Series)}
    {p : String × Series} (hp : p ∈ sd) (h : (dropna p.2).isEmpty = false) :
    ∃ ec, earliestCommon sd = some ec := by
  obtain ⟨m, hm⟩ := minObsDate_isSome h
  have hpf : p ∈ sd.filter (fun p => !(dropna p.2).isEmpty) :=
    List.mem_filter.mpr ⟨hp, by simp [h]⟩
  have hmem : m ∈ (sd.filter (fun p => !(dropna p.2).isEmpty)).filterMap
      (fun p => minObsDate p.2) :=
    List.mem_filterMap.mpr ⟨p, hpf, hm⟩
  unfold earliestCommon
  cases hl : (sd.filter (fun p => !(dropna p.2).isEmpty)).filterMap
      (fun p => minObsDate p.2) with
  | nil => rw [hl] at hmem; simp at hmem
  | cons x xs => exact ⟨_, rfl⟩

theorem noOverlapMsg_ne_empty : noOverlapMsg ≠ "" := by decide

theorem adjustMsg_ne_empty (d : Int) : adjustMsg d ≠ "" := by
  intro h
  have hlen := congrArg String.length h
  rw [adjustMsg] at hlen
  rw [String.length_append, String.length_append] at hlen
  have h1 : ("Adjusted start date to **" : String).length = 25 := rfl
  have h2 : ("** so that all selected funds have data." : String).length = 40 := rfl
  have h3 : ("" : String).length = 0 := rfl
  omega

/-! ### Claims -/

/-- Claim C1, counterexample: with a series dictionary in which every series is
empty, `build_combined` does not return a zero-row table; it raises (the
`max()` over an empty sequence at line 173 raises `ValueError`, modelled as
`none`). -/
theorem C1_counterexample :
    build_combined [("A", ([] : Series))] 0 10 = none := by rfl

/-- Claim C1 (amended): `build_combined` returns a result without raising
whenever at least one fund's series has a real observation; `safe_normalise`
and `period_returns` are total functions of the embedding outright. -/
theorem C1_total_on_some_real_data (sd : List (String × Series)) (s e : Int)
    (h : ∃ p ∈ sd, (dropna p.2).isEmpty = false) :
    (build_combined sd s e).isSome = true := by
  obtain ⟨p, hp, hne⟩ := h
  obtain ⟨ec, hec⟩ := earliestCommon_isSome hp hne
  simp only [build_combined, hec]
  split
  · split <;> rfl
  · rfl

/-- Witness for the amended claim C1 at a concrete input. -/
theorem C1_witness :
    (∃ p ∈ sdW, (dropna p.2).isEmpty = false) ∧
    (build_combined sdW 0 10).isSome = true :=
  ⟨by decide, C1_total_on_some_real_data sdW 0 10 (by decide)⟩

/-- Claim C3: if the requested slice of the aligned table is non-empty,
`build_combined` returns exactly that slice with the empty message; and a
result carrying the empty message is always exactly the requested slice,
non-empty (so an adjusted or empty result always carries a message). -/
theorem C3_no_silent_adjustment (sd : List (String × Series)) (s e : Int) :
    ((sliceTable (combined_full sd) s e).isEmpty = false →
      build_combined sd s e = some (sliceTable (combined_full sd) s e, "")) ∧
    (∀ t m, build_combined sd s e = some (t, m) → m = "" →
      t = sliceTable (combined_full sd) s e ∧ t.isEmpty = false) := by
  constructor
  · intro h
    simp [build_combined, h]
  · intro t m hbc hm
    subst hm
    by_cases hemp : (sliceTable (combined_full sd) s e).isEmpty = true
    · cases hec : earliestCommon sd with
      | none => simp [build_combined, hemp, hec] at hbc
      | some ec =>
          simp only [build_combined, hemp, eq_self_iff_true, if_true, hec] at hbc
          split at hbc
          · rw [Option.some.injEq, Prod.mk.injEq] at hbc
            exact absurd hbc.2 noOverlapMsg_ne_empty
          · rw [Option.some.injEq, Prod.mk.injEq] at hbc
            exact absurd hbc.2 (adjustMsg_ne_empty ec)
    · have hemp' : (sliceTable (combined_full sd) s e).isEmpty = false := by
        simpa using hemp
      simp only [build_combined, hemp', Bool.false_eq_true, if_false,
        Option.some.injEq, Prod.mk.injEq] at hbc
      obtain ⟨ht, -⟩ := hbc
      subst ht
      exact ⟨rfl, hemp'⟩

/-- Witness for claim C3 at a concrete input. -/
theorem C3_witness :
    build_combined sdW 1 10 = some (sliceTable (combined_full sdW) 1 10, "") :=
  (C3_no_silent_adjustment sdW 1 10).1 (by decide)

/-- Claim C4: when the requested slice is empty and the computed effective
start is strictly after the end date, `build_combined` returns, without
raising, an empty table whose columns are the fund names, together with a
non-empty message. -/
theorem C4_unrecoverable_window (sd : List (String × Series)) (s e ec : Int)
    (hemp : (sliceTable (combined_full sd) s e).isEmpty = true)
    (hec : earliestCommon sd = some ec) (hgt : e < ec) :
    build_combined sd s e = some (emptyTableCols (sd.map Prod.fst), noOverlapMsg) ∧
    noOverlapMsg ≠ "" ∧
    (emptyTableCols (sd.map Prod.fst)).index = [] ∧
    (emptyTableCols (sd.map Prod.fst)).cols.map Prod.fst = sd.map Prod.fst := by
  refine ⟨?_, noOverlapMsg_ne_empty, rfl, ?_⟩
  · simp only [build_combined, hemp, if_true, hec]
    rw [if_pos hgt]
  · simp [emptyTableCols, List.map_map, Function.comp_def]

/-- Witness for claim C4 at a concrete input. -/
theorem C4_witness :
    build_combined sdW (-10) (-5)
      = some (emptyTableCols (sdW.map Prod.fst), noOverlapMsg) ∧
    noOverlapMsg ≠ "" ∧
    (emptyTableCols (sdW.map Prod.fst)).index = [] ∧
    (emptyTableCols (sdW.map Prod.fst)).cols.map Prod.fst = sdW.map Prod.fst :=
  C4_unrecoverable_window sdW (-10) (-5) 5 (by decide) (by decide) (by decide)

/-- The index of the aligned table is the sorted union of observation dates. -/
theorem combined_full_index (sd : List (String × Series)) :
    (combined_full sd).index = unionDates sd := rfl

/-- Helper: the adjusted branch of `build_combined`. -/
theorem build_combined_adjusted (sd : List (String × Series)) (s e ec : Int)
    (hemp : (sliceTable (combined_full sd) s e).isEmpty = true)
    (hec : earliestCommon sd = some ec) (hle : ec ≤ e) :
    build_combined sd s e
      = some (sliceTable (combined_full sd) ec e, adjustMsg ec) := by
  simp only [build_combined, hemp, eq_self_iff_true, if_true, hec]
  rw [if_neg (by omega)]

/-- Helper: a some-valued `minObsDate` forces a non-empty `dropna`. -/
theorem dropna_ne_of_minObsDate {s : Series} {m : Int}
    (hm : minObsDate s = some m) : (dropna s).isEmpty = false := by
  cases hd : dropna s with
  | nil => rw [minObsDate, hd] at hm; simp [listMin] at hm
  | cons a l => simp

/-- Helper: on a strictly sorted list containing `a` with `a ≤ b`, the slice
filter `[a, b]` keeps `a` as its first element. -/
theorem filter_slice_headD {l : List Int} (hsor : List.Pairwise (· < ·) l)
    {a b : Int} (ha : a ∈ l) (hab : a ≤ b) :
    (l.filter (fun d => decide (a ≤ d) && decide (d ≤ b))).headD 0 = a ∧
    (l.filter (fun d => decide (a ≤ d) && decide (d ≤ b))) ≠ [] := by
  induction l with
  | nil => simp at ha
  | cons x xs ih =>
      rw [List.pairwise_cons] at hsor
      rcases List.mem_cons.mp ha with rfl | ha'
      · have hkeep : (decide (a ≤ a) && decide (a ≤ b)) = true := by simp [hab]
        simp [List.filter_cons, hkeep, hab]
      · have hxa : x < a := hsor.1 a ha'
        have hdrop : (decide (a ≤ x) && decide (x ≤ b)) = false := by
          have : ¬ a ≤ x := by omega
          simp [this]
        simp only [List.filter_cons, hdrop, Bool.false_eq_true, if_false]
        exact ih hsor.2 ha'

/-- Helper: the effective start (maximum of per-fund minimums) is itself a
date of the union index. -/
theorem earliestCommon_mem_unionDates {sd : List (String × Series)} {ec : Int}
    (hec : earliestCommon sd = some ec) : ec ∈ unionDates sd := by
  have hec' : listMax ((sd.filter (fun p => !(dropna p.2).isEmpty)).filterMap
      (fun p => minObsDate p.2)) = some ec := hec
  obtain ⟨p, hpf, hpm⟩ := List.mem_filterMap.mp (listMax_mem hec')
  have hp : p ∈ sd := (List.mem_filter.mp hpf).1
  have hmem : ec ∈ (dropna p.2).map Prod.fst := listMin_mem hpm
  obtain ⟨ent, hent, hfst⟩ := List.mem_map.mp hmem
  have : ent ∈ p.2 := List.mem_of_mem_filter hent
  exact hfst ▸ mem_unionDates hp this

/-- Claim C2: when the requested slice is empty, `build_combined` computes the
effective start as the maximum, over all funds with at least one real
observation, of that fund's minimum observation date, and when it is at most
the end date returns the slice of the forward-filled aligned table from the
effective start to the end date with a non-empty adjustment message. -/
theorem C2_auto_adjust (sd : List (String × Series)) (s e ec : Int)
    (hemp : (sliceTable (combined_full sd) s e).isEmpty = true)
    (hec : earliestCommon sd = some ec) (hle : ec ≤ e) :
    build_combined sd s e
      = some (sliceTable (combined_full sd) ec e, adjustMsg ec) ∧
    adjustMsg ec ≠ "" ∧
    (∀ p ∈ sd, ∀ m, minObsDate p.2 = some m → m ≤ ec) ∧
    (∃ p ∈ sd, (dropna p.2).isEmpty = false ∧ minObsDate p.2 = some ec) := by
  have hec' : listMax ((sd.filter (fun p => !(dropna p.2).isEmpty)).filterMap
      (fun p => minObsDate p.2)) = some ec := hec
  refine ⟨build_combined_adjusted sd s e ec hemp hec hle, adjustMsg_ne_empty ec,
    ?_, ?_⟩
  · intro p hp m hm
    have hkept : p ∈ sd.filter (fun p => !(dropna p.2).isEmpty) :=
      List.mem_filter.mpr ⟨hp, by simp [dropna_ne_of_minObsDate hm]⟩
    exact le_listMax hec' m (List.mem_filterMap.mpr ⟨p, hkept, hm⟩)
  · obtain ⟨p, hpf, hpm⟩ := List.mem_filterMap.mp (listMax_mem hec')
    have hp : p ∈ sd := (List.mem_filter.mp hpf).1
    have hne : (dropna p.2).isEmpty = false := by
      have := (List.mem_filter.mp hpf).2
      simpa using this
    exact ⟨p, hp, hne, hpm⟩

/-- Witness for claim C2 at a concrete input: all data of `sdW` lies before
the requested window `[20, 30]`, so the start is adjusted to day 5. -/
theorem C2_witness :
    build_combined sdW 20 30
      = some (sliceTable (combined_full sdW) 5 30, adjustMsg 5) ∧
    adjustMsg 5 ≠ "" ∧
    (∀ p ∈ sdW, ∀ m, minObsDate p.2 = some m → m ≤ 5) ∧
    (∃ p ∈ sdW, (dropna p.2).isEmpty = false ∧ minObsDate p.2 = some 5) :=
  C2_auto_adjust sdW 20 30 5 (by decide) (by decide) (by decide)

/-- Claim C10: a successful adjustment is never empty — when the requested
slice is empty but the computed effective start is at most the end date, the
returned table is non-empty and its first row's date is exactly the effective
start, which is a date of the aligned table's union index. -/
theorem C10_adjusted_result_nonempty (sd : List (String × Series)) (s e ec : Int)
    (hemp : (sliceTable (combined_full sd) s e).isEmpty = true)
    (hec : earliestCommon sd = some ec) (hle : ec ≤ e) :
    build_combined sd s e
      = some (sliceTable (combined_full sd) ec e, adjustMsg ec) ∧
    (sliceTable (combined_full sd) ec e).isEmpty = false ∧
    (sliceTable (combined_full sd) ec e).index.headD 0 = ec ∧
    ec ∈ (combined_full sd).index := by
  have hmem : ec ∈ unionDates sd := earliestCommon_mem_unionDates hec
  have hfil := filter_slice_headD (sorted_unionDates sd) hmem hle
  have hsd : sd ≠ [] := by
    intro h
    subst h
    simp [earliestCommon, listMax] at hec
  refine ⟨build_combined_adjusted sd s e ec hemp hec hle, ?_, hfil.1, hmem⟩
  have hidx : (sliceTable (combined_full sd) ec e).index
      = (unionDates sd).filter (fun d => decide (ec ≤ d) && decide (d ≤ e)) := rfl
  have hcols : (sliceTable (combined_full sd) ec e).cols.length = sd.length := by
    simp [sliceTable, combined_full, ffillTable, concatTable]
  simp only [Table.isEmpty, hidx, Bool.or_eq_false_iff]
  constructor
  · rw [List.isEmpty_eq_false]
    exact hfil.2
  · rw [List.isEmpty_eq_false]
    intro h
    rw [h] at hcols
    simp at hcols
    exact hsd (List.length_eq_zero.mp hcols.symm)

/-- Witness for claim C10 at a concrete input. -/
theorem C10_witness :
    build_combined sdW 20 30
      = some (sliceTable (combined_full sdW) 5 30, adjustMsg 5) ∧
    (sliceTable (combined_full sdW) 5 30).isEmpty = false ∧
    (sliceTable (combined_full sdW) 5 30).index.headD 0 = 5 ∧
    (5 : Int) ∈ (combined_full sdW).index :=
  C10_adjusted_result_nonempty sdW 20 30 5 (by decide) (by decide) (by decide)

/-- Claim C8: on an empty table, `period_returns` returns the empty returns
table that still carries all the period labels, with no fund entries and
hence every value absent. -/
theorem C8_empty_input (df : Table) (ps : List (String × Int))
    (h : df.isEmpty = true) :
    period_returns df ps
      = { labels := ps.map Prod.fst, funds := [],
          rows := ps.map (fun _ => []) } ∧
    (∀ k i, ((period_returns df ps).rows.getD k []).getD i none = none) := by
  have hpr : period_returns df ps
      = { labels := ps.map Prod.fst, funds := [],
          rows := ps.map (fun _ => ([] : List (Option ℚ))) } := by
    simp [period_returns, h]
  refine ⟨hpr, ?_⟩
  intro k i
  rw [hpr]
  have hk : (ps.map (fun _ => ([] : List (Option ℚ)))).getD k [] = [] := by
    rw [List.getD_eq_getElem?_getD, List.getElem?_map]
    cases ps[k]? <;> rfl
  simp [hk]

/-- Witness for claim C8 at a concrete input. -/
theorem C8_witness :
    period_returns (emptyTableCols ["A"]) [("1-M", 0)]
      = { labels := ["1-M"], funds := [], rows := [[]] } ∧
    (∀ k i,
      ((period_returns (emptyTableCols ["A"]) [("1-M", 0)]).rows.getD k
        []).getD i none = none) :=
  C8_empty_input (emptyTableCols ["A"]) [("1-M", 0)] (by decide)

/-- Claim C9: for a non-empty table, the row for an anchor strictly before the
table's first date is absent for every fund; otherwise each fund's entry is
`(latest / price_start - 1) * 100` rounded to two decimals, where
`price_start` is the last row dated at most the anchor, and a fund whose
`price_start` cell is absent gets an absent entry. -/
theorem C9_per_anchor (df : Table) (ps : List (String × Int))
    (hne : df.isEmpty = false) (k : Nat) (hk : k < ps.length) :
    ((period_returns df ps).rows.getD k []
      = if (ps.getD k ("", 0)).2 < df.index.headD 0
        then df.cols.map (fun _ => none)
        else ((latestRow df).zip (priceStartRow df (ps.getD k ("", 0)).2)).map
          (fun q => retCell q.1 q.2)) ∧
    ((ps.getD k ("", 0)).2 < df.index.headD 0 →
      ∀ i, ((period_returns df ps).rows.getD k []).getD i none = none) ∧
    (∀ a i, (priceStartRow df a).getD i none = none →
      retCell ((latestRow df).getD i none) ((priceStartRow df a).getD i none)
        = none) := by
  have hrow : (period_returns df ps).rows.getD k []
      = if (ps.getD k ("", 0)).2 < df.index.headD 0
        then df.cols.map (fun _ => none)
        else ((latestRow df).zip (priceStartRow df (ps.getD k ("", 0)).2)).map
          (fun q => retCell q.1 q.2) := by
    simp only [period_returns, hne, Bool.false_eq_true, if_false]
    rw [List.getD_eq_getElem?_getD, List.getElem?_map,
      List.getElem?_eq_getElem hk, List.getD_eq_getElem?_getD,
      List.getElem?_eq_getElem hk]
    rfl
  refine ⟨hrow, ?_, ?_⟩
  · intro hlt i
    rw [hrow, if_pos hlt, List.getD_eq_getElem?_getD, List.getElem?_map]
    cases df.cols[i]? <;> rfl
  · intro a i hps
    rw [hps]
    cases (latestRow df).getD i none <;> rfl

/-- Witness for claim C9 at a concrete input: anchor day 0 precedes all data,
anchor day 7 lands between rows and resolves to the day-5 row. -/
theorem C9_witness :
    ((period_returns (combined_full sdW) [("1-M", 0), ("3-M", 7)]).rows.getD 1 []
      = if ((([("1-M", 0), ("3-M", 7)] : List (String × Int)).getD 1 ("", 0)).2
            < (combined_full sdW).index.headD 0)
        then (combined_full sdW).cols.map (fun _ => none)
        else ((latestRow (combined_full sdW)).zip
            (priceStartRow (combined_full sdW)
              (([("1-M", 0), ("3-M", 7)] : List (String × Int)).getD 1 ("", 0)).2)).map
          (fun q => retCell q.1 q.2)) ∧
    (((([("1-M", 0), ("3-M", 7)] : List (String × Int)).getD 1 ("", 0)).2
        < (combined_full sdW).index.headD 0) →
      ∀ i, ((period_returns (combined_full sdW)
        [("1-M", 0), ("3-M", 7)]).rows.getD 1 []).getD i none = none) ∧
    (∀ a i, (priceStartRow (combined_full sdW) a).getD i none = none →
      retCell ((latestRow (combined_full sdW)).getD i none)
        ((priceStartRow (combined_full sdW) a).getD i none) = none) :=
  C9_per_anchor (combined_full sdW) [("1-M", 0), ("3-M", 7)] (by decide) 1
    (by decide)

/-- Helper: on a strictly sorted index, looking up the date sitting at
position `j` via `find?` over the zipped column returns that column's `j`-th
cell. -/
theorem find_zip_bind_eq {idx : List Int} {vs : List (Option ℚ)}
    (hsor : List.Pairwise (· < ·) idx) (hlen : vs.length = idx.length)
    {j : Nat} (hj : j < idx.length) {b : Int} (hb : idx.getD j 0 = b) :
    ((idx.zip vs).find? (fun q => q.1 = b)).bind Prod.snd = vs.getD j none := by
  induction idx generalizing vs j with
  | nil => simp at hj
  | cons x xs ih =>
      cases vs with
      | nil => simp at hlen
      | cons v vt =>
          rw [List.pairwise_cons] at hsor
          cases j with
          | zero =>
              have hxb : x = b := by simpa using hb
              subst hxb
              simp [List.zip_cons_cons, List.find?]
          | succ j' =>
              have hj' : j' < xs.length := by simpa using hj
              have hb' : xs.getD j' 0 = b := by simpa using hb
              have hbmem : b ∈ xs := by
                rw [← hb', List.getD_eq_getElem?_getD,
                  List.getElem?_eq_getElem hj']
                exact List.getElem_mem hj'
              have hxb : x < b := hsor.1 b hbmem
              have hne2 : (decide (x = b)) = false := by
                simp only [decide_eq_false_iff_not]
                omega
              rw [List.zip_cons_cons, List.find?_cons_of_neg _ (by simp; omega),
                List.getD_cons_succ]
              exact ih hsor.2 (by simpa using hlen) hj' hb'

/-- Helper: cell-level description of `safe_normalise` on a non-empty table:
each cell is the original cell divided by the fund's value at the chosen
reference row, times 100, with absent operands propagating to absent. -/
theorem cell_getElem (t : Table) (k j : Nat) :
    t.cell k j = ((t.cols[k]?.getD ("", [])).2)[j]?.getD none := by
  rw [Table.cell, List.getD_eq_getElem?_getD, List.getD_eq_getElem?_getD]

theorem safe_normalise_cell (df : Table) (r : Int) (hne : df.isEmpty = false) :
    ∀ k j, (safe_normalise df r).cell k j
      = normCell (df.cell k j) ((rowAt df (normBase df r)).getD k none) := by
  intro k j
  have hbl : (rowAt df (normBase df r)).length = df.cols.length := by
    simp [rowAt]
  rw [cell_getElem, cell_getElem,
    List.getD_eq_getElem?_getD (rowAt df (normBase df r))]
  simp only [safe_normalise, hne, Bool.false_eq_true, if_false]
  rw [List.getElem?_map]
  rcases lt_or_ge k df.cols.length with hk | hk
  · cases hz : (df.cols.zip (rowAt df (normBase df r)))[k]? with
    | none =>
        rw [List.getElem?_eq_none_iff, List.length_zip] at hz
        omega
    | some p =>
        obtain ⟨hp1, hp2⟩ := List.getElem?_zip_eq_some.mp hz
        rw [hp1, hp2]
        simp only [Option.map_some', Option.getD_some]
        rw [List.getElem?_map]
        cases p.1.2[j]? with
        | none => cases p.2 <;> rfl
        | some v => rfl
  · have hz : (df.cols.zip (rowAt df (normBase df r)))[k]? = none := by
      rw [List.getElem?_eq_none_iff, List.length_zip]
      omega
    have hc : df.cols[k]? = none := List.getElem?_eq_none (by omega)
    have hr2 : (rowAt df (normBase df r))[k]? = none :=
      List.getElem?_eq_none (by omega)
    rw [hz, hc, hr2]
    rfl

/-- Claim C6: the normalizer returns an empty table unchanged; an off-table
reference date deterministically falls back to the table's earliest date; each
cell is the original divided by the fund's reference value times 100; and a
fund with an absent reference value gets an entirely absent column. -/
theorem C6_normalizer_contract (df : Table) (r : Int) :
    (df.isEmpty = true → safe_normalise df r = df) ∧
    (r ∉ df.index →
      safe_normalise df r = safe_normalise df (df.index.headD 0)) ∧
    (∀ k, df.isEmpty = false →
      (rowAt df (normBase df r)).getD k none = none →
      ∀ j, (safe_normalise df r).cell k j = none) ∧
    (∀ k j, df.isEmpty = false →
      (safe_normalise df r).cell k j
        = normCell (df.cell k j) ((rowAt df (normBase df r)).getD k none)) := by
  refine ⟨?_, ?_, ?_, ?_⟩
  · intro h
    simp [safe_normalise, h]
  · intro hr
    have h1 : normBase df r = df.index.headD 0 := by simp [normBase, hr]
    have h2 : normBase df (df.index.headD 0) = df.index.headD 0 := by
      unfold normBase; split <;> rfl
    simp only [safe_normalise, h1, h2]
  · intro k hne hb j
    rw [safe_normalise_cell df r hne k j, hb]
    cases df.cell k j <;> rfl
  · intro k j hne
    exact safe_normalise_cell df r hne k j

/-- Witness for claim C6 at a concrete input: day 7 is not a row of the
aligned table of `sdW`, and fund `B` has no value at the fallback reference
day 1, so its whole normalised column is absent. -/
theorem C6_witness :
    (safe_normalise (combined_full sdW) 7
      = safe_normalise (combined_full sdW) ((combined_full sdW).index.headD 0)) ∧
    (safe_normalise (combined_full sdW) 7).cell 1 0 = none ∧
    (safe_normalise (combined_full sdW) 7).cell 1 2 = none :=
  ⟨(C6_normalizer_contract (combined_full sdW) 7).2.1 (by decide),
   (C6_normalizer_contract (combined_full sdW) 7).2.2.1 1 (by decide) (by decide) 0,
   (C6_normalizer_contract (combined_full sdW) 7).2.2.1 1 (by decide) (by decide) 2⟩

/-- Claim C7: any fund whose value at the chosen reference row is present and
non-zero normalises to exactly 100 at the reference row. -/
theorem C7_reference_value_normalises_to_100 (df : Table) (r : Int)
    (hwf : ∀ c ∈ df.cols, c.2.length = df.index.length)
    (hsor : List.Pairwise (· < ·) df.index)
    (k j : Nat) (hk : k < df.cols.length) (hj : j < df.index.length)
    (hjr : df.index.getD j 0 = normBase df r)
    (x : ℚ) (hx : df.cell k j = some x) (hx0 : x ≠ 0) :
    (safe_normalise df r).cell k j = some 100 := by
  have hne : df.isEmpty = false := by
    simp only [Table.isEmpty, Bool.or_eq_false_iff]
    constructor <;> rw [List.isEmpty_eq_false] <;> intro h
    · rw [h] at hj; simp at hj
    · rw [h] at hk; simp at hk
  have hcell : (df.cols[k]).2.getD j none = some x := by
    rw [← hx, cell_getElem, List.getElem?_eq_getElem hk,
      List.getD_eq_getElem?_getD]
    rfl
  have hbase : (rowAt df (normBase df r)).getD k none = some x := by
    rw [rowAt, List.getD_eq_getElem?_getD, List.getElem?_map,
      List.getElem?_eq_getElem hk]
    simp only [Option.map_some', Option.getD_some]
    rw [find_zip_bind_eq hsor (hwf _ (List.getElem_mem hk)) hj hjr]
    exact hcell
  rw [safe_normalise_cell df r hne k j, hx, hbase]
  simp only [normCell, hx0, if_false]
  rw [div_self hx0]
  norm_num

/-- Witness for claim C7 at a concrete input: normalising the aligned table
of `sdW` at day 5, fund `A` holds 100 at the reference row. -/
theorem C7_witness : (safe_normalise (combined_full sdW) 5).cell 0 1 = some 100 :=
  C7_reference_value_normalises_to_100 (combined_full sdW) 5 (by decide)
    (by decide) 0 1 (by decide) (by decide) (by decide) 100 (by decide)
    (by decide)

/-- Helper: no real observation at or before `d` means no spec value. -/
theorem specLastObsAt_eq_none {s : Series} {d : Int}
    (h : ∀ e ∈ s, d < e.1) : specLastObsAt s d = none := by
  induction s with
  | nil => rfl
  | cons e rest ih =>
      have hrest : specLastObsAt rest d = none :=
        ih (fun e' he' => h e' (List.mem_cons_of_mem _ he'))
      have hd : ¬ e.1 ≤ d := not_le.mpr (h e (List.mem_cons_self _ _))
      simp [specLastObsAt, hrest, hd]

/-- Helper: no entry dated `d` means the exact-date lookup is absent. -/
theorem lookupAt_eq_none {s : Series} {d : Int} (h : ∀ e ∈ s, e.1 ≠ d) :
    lookupAt s d = none := by
  rw [lookupAt, List.find?_eq_none.mpr]
  · rfl
  · intro a ha
    simp [h a ha]

/-- Helper for the forward-fill invariant: on a sorted series with no entry
dated strictly inside `(b, i)`, the spec value at `i` is the exact cell at
`i` when that is present, and otherwise the spec value at `b`. -/
theorem specLastObsAt_step (b i : Int) (hbi : b < i) :
    ∀ s : Series, SeriesSorted s →
      (∀ e ∈ s, b < e.1 → e.1 ≤ i → e.1 = i) →
      (lookupAt s i = none → specLastObsAt s i = specLastObsAt s b) ∧
      (∀ v, lookupAt s i = some v → specLastObsAt s i = some v) := by
  intro s
  induction s with
  | nil =>
      intro _ _
      exact ⟨fun _ => rfl, fun v hv => by simp [lookupAt] at hv⟩
  | cons e rest ih =>
      intro hs hgap
      rw [SeriesSorted, List.pairwise_cons] at hs
      obtain ⟨hhead, htail⟩ := hs
      have hgr : ∀ e' ∈ rest, b < e'.1 → e'.1 ≤ i → e'.1 = i :=
        fun e' he' => hgap e' (List.mem_cons_of_mem _ he')
      have ihr := ih htail hgr
      by_cases he : e.1 = i
      · have hrgt : ∀ e' ∈ rest, i < e'.1 := fun e' h' => he ▸ hhead e' h'
        have hrs_i : specLastObsAt rest i = none := specLastObsAt_eq_none hrgt
        have hrs_b : specLastObsAt rest b = none :=
          specLastObsAt_eq_none (fun e' h' => by have := hrgt e' h'; omega)
        have hlook : lookupAt (e :: rest) i = e.2 := by
          rw [lookupAt, List.find?_cons_of_pos _ (by simp [he])]
          rfl
        constructor
        · intro h0
          rw [hlook] at h0
          have hL : specLastObsAt (e :: rest) i = e.2 := by
            simp [specLastObsAt, hrs_i, he]
          have hR : specLastObsAt (e :: rest) b = none := by
            have hnb : ¬ e.1 ≤ b := by omega
            simp [specLastObsAt, hrs_b, hnb]
          rw [hL, hR, h0]
        · intro v hv
          rw [hlook] at hv
          simp [specLastObsAt, hrs_i, he, hv]
      · have hlook : lookupAt (e :: rest) i = lookupAt rest i := by
          rw [lookupAt, lookupAt, List.find?_cons_of_neg _ (by simp [he])]
        rcases lt_or_le b e.1 with hbe | hbe
        · have hgt : i < e.1 := by
            rcases lt_or_le i e.1 with h | h
            · exact h
            · exact absurd (hgap e (List.mem_cons_self _ _) hbe h) he
          have hall : ∀ e' ∈ e :: rest, i < e'.1 := by
            intro e' h'
            rcases List.mem_cons.mp h' with rfl | h'
            · exact hgt
            · exact lt_trans hgt (hhead e' h')
          have hLi : specLastObsAt (e :: rest) i = none :=
            specLastObsAt_eq_none hall
          have hLb : specLastObsAt (e :: rest) b = none :=
            specLastObsAt_eq_none (fun e' h' => by have := hall e' h'; omega)
          have hlz : lookupAt (e :: rest) i = none :=
            lookupAt_eq_none (fun e' h' => by have := hall e' h'; omega)
          constructor
          · intro h0
            rw [hLi, hLb]
          · intro v hv
            rw [hlz] at hv
            exact absurd hv (by simp)
        · constructor
          · intro h0
            rw [hlook] at h0
            have hri := ihr.1 h0
            have hle_i : e.1 ≤ i := by omega
            simp only [specLastObsAt, hri]
            cases hrb : specLastObsAt rest b with
            | some v => rfl
            | none => simp [hle_i, hbe]
          · intro v hv
            rw [hlook] at hv
            have hri := ihr.2 v hv
            simp only [specLastObsAt, hri]

/-- Helper: the head of a strictly sorted list bounds its members below. -/
theorem sorted_headD_le {l : List Int} (h : List.Pairwise (· < ·) l) :
    ∀ x ∈ l, l.headD 0 ≤ x := by
  cases l with
  | nil => intro x hx; simp at hx
  | cons a t =>
      rw [List.pairwise_cons] at h
      intro x hx
      rcases List.mem_cons.mp hx with rfl | hx'
      · simp
      · simpa using le_of_lt (h.1 x hx')

/-- Invariant of the forward-fill fold: feeding the exact-date cells of a
sorted date list into `ffillList`, seeded with the spec value just before the
list, produces exactly the spec value at each date — provided every series
date past the seed occurs in the list. -/
theorem ffill_cells_spec {s : Series} (hs : SeriesSorted s) :
    ∀ (is : List Int) (b : Int) (acc : Option ℚ),
      List.Pairwise (· < ·) is →
      (∀ i ∈ is, b < i) →
      (∀ e ∈ s, b < e.1 → e.1 ∈ is) →
      acc = specLastObsAt s b →
      ∀ j, j < is.length →
        (ffillList acc (is.map (lookupAt s))).getD j none
          = specLastObsAt s (is.getD j 0) := by
  intro is
  induction is with
  | nil =>
      intro b acc _ _ _ _ j hj
      simp at hj
  | cons i it ih =>
      intro b acc hsor hbi hsub hacc j hj
      rw [List.pairwise_cons] at hsor
      have hbi0 : b < i := hbi i (List.mem_cons_self _ _)
      have hgap : ∀ e ∈ s, b < e.1 → e.1 ≤ i → e.1 = i := by
        intro e he hbe hei
        rcases List.mem_cons.mp (hsub e he hbe) with h | h
        · exact h
        · have := hsor.1 _ h
          omega
      have hstep := specLastObsAt_step b i hbi0 s hs hgap
      have hsub' : ∀ e ∈ s, i < e.1 → e.1 ∈ it := by
        intro e he hie
        rcases List.mem_cons.mp (hsub e he (by omega)) with h | h
        · omega
        · exact h
      have hmap : (i :: it).map (lookupAt s)
          = lookupAt s i :: it.map (lookupAt s) := rfl
      rw [hmap]
      cases hlook : lookupAt s i with
      | some x =>
          have hacc' : specLastObsAt s i = some x := hstep.2 x hlook
          cases j with
          | zero => simp [ffillList, hacc']
          | succ j' =>
              have hj' : j' < it.length := by simpa using hj
              simp only [ffillList, List.getD_cons_succ]
              exact ih i (some x) hsor.2 hsor.1 hsub' hacc'.symm j' hj'
      | none =>
          have hacc' : specLastObsAt s i = acc := by
            rw [hstep.1 hlook, hacc]
          cases j with
          | zero => simp [ffillList, hacc']
          | succ j' =>
              have hj' : j' < it.length := by simpa using hj
              simp only [ffillList, List.getD_cons_succ]
              exact ih i acc hsor.2 hsor.1 hsub' hacc'.symm j' hj'

/-- Claim C5: in the aligned, forward-filled table, every cell holds the
fund's most recent real observation at or before the row's date when one
exists, and is absent otherwise (no backfill before a fund's first real
observation). -/
theorem C5_forward_fill_invariant (sd : List (String × Series))
    (hs : ∀ p ∈ sd, SeriesSorted p.2) :
    ∀ k, k < sd.length → ∀ j, j < (combined_full sd).index.length →
      (combined_full sd).cell k j
        = specLastObsAt (sd.getD k ("", [])).2
            ((combined_full sd).index.getD j 0) := by
  intro k hk j hj
  have hp : sd.getD k ("", []) = sd[k] := by
    rw [List.getD_eq_getElem?_getD, List.getElem?_eq_getElem hk]
    rfl
  have hcol : (combined_full sd).cols.getD k ("", [])
      = ((sd[k]).1, ffillList none
          ((unionDates sd).map (fun d => lookupAt (sd[k]).2 d))) := by
    simp only [combined_full, ffillTable, concatTable]
    rw [List.getD_eq_getElem?_getD, List.getElem?_map, List.getElem?_map,
      List.getElem?_eq_getElem hk]
    rfl
  have hjlen : j < (unionDates sd).length := hj
  have hsorted := sorted_unionDates sd
  have hmem : ∀ e ∈ (sd[k]).2, e.1 ∈ unionDates sd :=
    fun e he => mem_unionDates (List.getElem_mem hk) he
  have hb : ∀ i ∈ unionDates sd, (unionDates sd).headD 0 - 1 < i := by
    intro i hi
    have := sorted_headD_le hsorted i hi
    omega
  have hseed : (none : Option ℚ)
      = specLastObsAt (sd[k]).2 ((unionDates sd).headD 0 - 1) := by
    refine (specLastObsAt_eq_none ?_).symm
    intro e he
    exact hb e.1 (hmem e he)
  rw [Table.cell, hcol, hp]
  exact ffill_cells_spec (hs _ (List.getElem_mem hk)) (unionDates sd)
    ((unionDates sd).headD 0 - 1) none hsorted hb
    (fun e he _ => hmem e he) hseed j hjlen

/-- Witness for claim C5 at a concrete input: fund `B` of `sdW` on day 10
(forward-fill of a real observation) and on day 1 (absent before the first
observation). -/
theorem C5_witness :
    (combined_full sdW).cell 1 2
      = specLastObsAt (sdW.getD 1 ("", [])).2 ((combined_full sdW).index.getD 2 0) ∧
    (combined_full sdW).cell 1 0
      = specLastObsAt (sdW.getD 1 ("", [])).2 ((combined_full sdW).index.getD 0 0) :=
  ⟨C5_forward_fill_invariant sdW (by decide) 1 (by decide) 2 (by decide),
   C5_forward_fill_invariant sdW (by decide) 1 (by decide) 0 (by decide)⟩

end FundSight
